import Mathlib

/-!
# Terrain streaming and level-of-detail subsystem: a shallow embedding

This file embeds `src/renderer/object/terrain.rs` of the `three-d` engine in
Lean 4 and proves the stated properties of its windowed patch grid, its
incremental `update` algorithm and its triangle-index generator.

Modelling conventions:
* Rust `f32` world coordinates are modelled as rationals (`ℚ`); every concrete
  input used below is exactly representable, so no rounding is involved.
* Rust `i32` grid arithmetic is modelled on `ℤ` (the values involved are tiny,
  so wrap-around never occurs); Rust's truncating `/` is `Int.tdiv`.
* `VERTICES_PER_SIDE` is a positive constant declared in `terrain_patch.rs`,
  which is not part of the sources at hand; all statements about
  `Terrain::indices` are therefore parameterized by `stride`, the value of
  that constant.
-/

namespace ThreeD

/-- `TerrainLod` (terrain.rs): the three levels of detail. -/
inductive TerrainLod
  | Standard
  | Coarse
  | VeryCoarse
deriving DecidableEq

/-- Identity of a shared index buffer.  `Rc::<ElementBuffer>::new` runs exactly
three times for a terrain, all in `Terrain::new`; `Rc::clone` shares the
allocation, so buffer identity ranges over these three values. -/
inductive BufferRef
  | standard
  | coarse
  | veryCoarse
deriving DecidableEq

/-- Modelled from the spec: `TerrainPatch` (terrain_patch.rs is not among the
sources) is identified by its grid coordinate `(ix, iy)` — which
`TerrainPatch::index` returns — and holds a shared reference to one of the
three topology buffers.  Its sampled vertex geometry decides none of the
properties below and is omitted. -/
structure TerrainPatch where
  ix : Int
  iy : Int
  indexBuffer : BufferRef
deriving DecidableEq

/-- `TerrainPatch::index`: the grid coordinate of a patch. -/
def TerrainPatch.index (p : TerrainPatch) : Int × Int := (p.ix, p.iy)

/-- A world position; the three `f32` components become rationals. -/
structure Vec3 where
  x : ℚ
  y : ℚ
  z : ℚ
deriving DecidableEq

/-- `Terrain` (terrain.rs): the grid center, the live patches, the three shared
index buffers, the LOD policy and the construction parameters.  The `context`,
`material` and `height_map` fields decide none of the properties below and are
omitted (`height_map` is consumed only by the omitted patch geometry).  The
policy field consumes the squared ground distance, see `patchDistSq`. -/
structure Terrain where
  center : Int × Int
  patches : List TerrainPatch
  indexBuffer : BufferRef
  coarseIndexBuffer : BufferRef
  veryCoarseIndexBuffer : BufferRef
  lod : ℚ → TerrainLod
  patchSize : ℚ
  patchesPerSide : Nat

/-- One cell of `Terrain::indices`: the six indices pushed for loop indices
`(r, c)`, in push order. -/
def cellIndices (resolution stride r c : Nat) : List Nat :=
  [r * resolution + c * resolution * stride,
   r * resolution + resolution + c * resolution * stride,
   r * resolution + (c * resolution + resolution) * stride,
   r * resolution + (c * resolution + resolution) * stride,
   r * resolution + resolution + c * resolution * stride,
   r * resolution + resolution + (c * resolution + resolution) * stride]

/-- `Terrain::indices`, parameterized by `stride = VERTICES_PER_SIDE`: the
flattened `for r in 0..max { for c in 0..max { .. } }` double loop, with
`max = (stride - 1) / resolution`. -/
def indices (resolution stride : Nat) : List Nat :=
  (List.range ((stride - 1) / resolution)).flatMap (fun r =>
    (List.range ((stride - 1) / resolution)).flatMap (fun c =>
      cellIndices resolution stride r c))

/-- The six output positions `6*(r*max + c)` through `6*(r*max + c) + 5` of
`Terrain::indices`, i.e. the indices emitted while the loop counters equal
`(r, c)`. -/
def cellBlock (resolution stride r c : Nat) : List Nat :=
  ((indices resolution stride).drop
    (6 * (r * ((stride - 1) / resolution) + c))).take 6

/-- `Terrain::half_patches_per_side`: `(patches_per_side as i32 - 1) / 2` with
Rust's truncating signed division. -/
def halfPatchesPerSide (patchesPerSide : Nat) : Int :=
  Int.tdiv ((patchesPerSide : Int) - 1) 2

/-- `Terrain::pos2patch`: floor of `position.x / patch_size` and of
`position.z / patch_size`. -/
def pos2patch (patchSize : ℚ) (position : Vec3) : Int × Int :=
  (Int.floor (position.x / patchSize), Int.floor (position.z / patchSize))

/-- The Rust integer range `a..b`, as the list `[a, a+1, ..., b-1]`. -/
def rangeInt (a b : Int) : List Int :=
  (List.range (b - a).toNat).map (fun (k : Nat) => a + (k : Int))

/-- The inner `for iy in center.1 - h .. center.1 + h + 1` loop of the two
column-adding while loops of `Terrain::update`: one full column of fresh
patches at grid abscissa `atX`, each holding the standard index buffer. -/
def newColumn (c1 h atX : Int) : List TerrainPatch :=
  (rangeInt (c1 - h) (c1 + h + 1)).map (fun iy => ⟨atX, iy, BufferRef.standard⟩)

/-- The inner `for ix in center.0 - h .. center.0 + h + 1` loop of the two
row-adding while loops of `Terrain::update`. -/
def newRow (c0 h atY : Int) : List TerrainPatch :=
  (rangeInt (c0 - h) (c0 + h + 1)).map (fun ix => ⟨ix, atY, BufferRef.standard⟩)

/-- The `while x0 > self.center.0` loop of `Terrain::update`: it runs once per
unit of `x0 - center.0`; on its k-th iteration `center.0` has been incremented
to `c0 + k` and the column at `c0 + k + h` is pushed. -/
def stepsXpos (h c1 : Int) : Nat → Int → List TerrainPatch
  | 0, _ => []
  | Nat.succ n, c0 => newColumn c1 h (c0 + 1 + h) ++ stepsXpos h c1 n (c0 + 1)

/-- The `while x0 < self.center.0` loop of `Terrain::update`. -/
def stepsXneg (h c1 : Int) : Nat → Int → List TerrainPatch
  | 0, _ => []
  | Nat.succ n, c0 => newColumn c1 h (c0 - 1 - h) ++ stepsXneg h c1 n (c0 - 1)

/-- The `while y0 > self.center.1` loop of `Terrain::update`; it runs after the
two column loops, so its rows sit at first coordinate range centered on `x0`. -/
def stepsYpos (h c0 : Int) : Nat → Int → List TerrainPatch
  | 0, _ => []
  | Nat.succ n, c1 => newRow c0 h (c1 + 1 + h) ++ stepsYpos h c0 n (c1 + 1)

/-- The `while y0 < self.center.1` loop of `Terrain::update`. -/
def stepsYneg (h c0 : Int) : Nat → Int → List TerrainPatch
  | 0, _ => []
  | Nat.succ n, c1 => newRow c0 h (c1 - 1 - h) ++ stepsYneg h c0 n (c1 - 1)

/-- Modelled from the spec: `TerrainPatch::center` (terrain_patch.rs is not
among the sources) is the tile centroid, whose ground coordinates are
`((ix + 1/2) * patch_size, (iy + 1/2) * patch_size)`; `Terrain::update` feeds
the Euclidean ground distance from the viewpoint to this centroid into the LOD
policy.  The squared ground distance — exact in `ℚ`, and carrying the same
information as the distance itself — stands in for the `f32` distance; the
policy field of `Terrain` consumes it directly. -/
def patchDistSq (patchSize : ℚ) (p : TerrainPatch) (position : Vec3) : ℚ :=
  ((p.ix + 1 / 2) * patchSize - position.x) ^ 2 +
    ((p.iy + 1 / 2) * patchSize - position.z) ^ 2

/-- The double `for ix { for iy { .. } }` loop of `Terrain::new`: the full
`(2h+1) × (2h+1)` block of patches around `c`, in `ix`-major creation order,
every patch holding the standard index buffer. -/
def newPatches (c : Int × Int) (h : Int) : List TerrainPatch :=
  (rangeInt (c.1 - h) (c.1 + h + 1)).flatMap (fun ix =>
    (rangeInt (c.2 - h) (c.2 + h + 1)).map (fun iy =>
      ⟨ix, iy, BufferRef.standard⟩))

/-- `Terrain::new`: center from `pos2patch`, a full block of standard-buffer
patches, the three index buffers allocated here (and only here), and the
initial LOD policy constantly `Standard`. -/
def Terrain.new (patchSize : ℚ) (patchesPerSide : Nat) (initialPosition : Vec3) :
    Terrain :=
  let center := pos2patch patchSize initialPosition
  let h := halfPatchesPerSide patchesPerSide
  { center := center
    patches := newPatches center h
    indexBuffer := BufferRef.standard
    coarseIndexBuffer := BufferRef.coarse
    veryCoarseIndexBuffer := BufferRef.veryCoarse
    lod := fun _ => TerrainLod.Standard
    patchSize := patchSize
    patchesPerSide := patchesPerSide }

/-- `Terrain::set_lod`. -/
def Terrain.setLod (t : Terrain) (lod : ℚ → TerrainLod) : Terrain :=
  { t with lod := lod }

/-- The `match (*self.lod)(distance)` arm of `Terrain::update`: the shared
buffer assigned for each LOD value. -/
def Terrain.bufferFor (t : Terrain) : TerrainLod → BufferRef
  | TerrainLod.VeryCoarse => t.veryCoarseIndexBuffer
  | TerrainLod.Coarse => t.coarseIndexBuffer
  | TerrainLod.Standard => t.indexBuffer

/-- The patches pushed by the four re-centering while loops of
`Terrain::update`, in push order.  The two column loops leave
`center.0 = x0`, so the two row loops range over first coordinates centered
on `x0`. -/
def Terrain.added (t : Terrain) (position : Vec3) : List TerrainPatch :=
  let x0 := (pos2patch t.patchSize position).1
  let y0 := (pos2patch t.patchSize position).2
  let h := halfPatchesPerSide t.patchesPerSide
  stepsXpos h t.center.2 (x0 - t.center.1).toNat t.center.1 ++
    stepsXneg h t.center.2 (t.center.1 - x0).toNat t.center.1 ++
    stepsYpos h x0 (y0 - t.center.2).toNat t.center.2 ++
    stepsYneg h x0 (t.center.2 - y0).toNat t.center.2

/-- The `retain` predicate of `Terrain::update`:
`(x0 - ix).abs() <= h && (y0 - iy).abs() <= h`. -/
def keepPatch (x0 y0 h : Int) (p : TerrainPatch) : Bool :=
  decide (|x0 - p.ix| ≤ h) && decide (|y0 - p.iy| ≤ h)

/-- The `retain` predicate as a predicate on bare grid coordinates;
`keepPatch x0 y0 h p = inWindowB x0 y0 h p.index` definitionally. -/
def inWindowB (x0 y0 h : Int) (q : Int × Int) : Bool :=
  decide (|x0 - q.1| ≤ h) && decide (|y0 - q.2| ≤ h)

/-- `Terrain::update`: the four re-centering while loops (which also move the
center to `(x0, y0)`), then the `retain` pass against the new target, then the
LOD reassignment of every surviving patch. -/
def Terrain.update (t : Terrain) (position : Vec3) : Terrain :=
  let x0 := (pos2patch t.patchSize position).1
  let y0 := (pos2patch t.patchSize position).2
  let h := halfPatchesPerSide t.patchesPerSide
  { t with
    center := (x0, y0)
    patches := ((t.patches ++ t.added position).filter (keepPatch x0 y0 h)).map
      (fun p =>
        { p with
          indexBuffer := t.bufferFor (t.lod (patchDistSq t.patchSize p position)) }) }

/-- The patches dropped by the `retain` pass of `Terrain::update`. -/
def Terrain.evicted (t : Terrain) (position : Vec3) : List TerrainPatch :=
  let x0 := (pos2patch t.patchSize position).1
  let y0 := (pos2patch t.patchSize position).2
  let h := halfPatchesPerSide t.patchesPerSide
  (t.patches ++ t.added position).filter (fun p => ! keepPatch x0 y0 h p)

/-- A caller-visible operation on a constructed terrain. -/
inductive TerrainOp
  | update (position : Vec3)
  | setLod (lod : ℚ → TerrainLod)

/-- Apply one operation. -/
def applyOp (t : Terrain) : TerrainOp → Terrain
  | TerrainOp.update position => t.update position
  | TerrainOp.setLod lod => t.setLod lod

/-- Apply a sequence of operations in order. -/
def applyOps (t : Terrain) (ops : List TerrainOp) : Terrain :=
  ops.foldl applyOp t

/-- Apply a sequence of `update` calls in order. -/
def applyUpdates (t : Terrain) (positions : List Vec3) : Terrain :=
  positions.foldl Terrain.update t

/-- The grid coordinates of a patch list, in order. -/
def coords (l : List TerrainPatch) : List (Int × Int) :=
  l.map TerrainPatch.index

/-- The Chebyshev window of radius `h` around `c`, as a finite set of grid
coordinates. -/
def windowFinset (c : Int × Int) (h : Int) : Finset (Int × Int) :=
  Finset.Icc (c.1 - h) (c.1 + h) ×ˢ Finset.Icc (c.2 - h) (c.2 + h)

/-- The windowing invariant: the live grid coordinates are exactly the
Chebyshev window around the center, without duplicates. -/
def Inv (t : Terrain) : Prop :=
  (coords t.patches).toFinset =
      windowFinset t.center (halfPatchesPerSide t.patchesPerSide) ∧
    (coords t.patches).Nodup

instance (t : Terrain) : Decidable (Inv t) := by
  unfold Inv
  infer_instance

/-! ## Basic lemmas about ranges, columns and rows -/

theorem mem_rangeInt {a b k : Int} : k ∈ rangeInt a b ↔ a ≤ k ∧ k < b := by
  unfold rangeInt
  simp only [List.mem_map, List.mem_range]
  constructor
  · rintro ⟨m, hm, rfl⟩
    omega
  · rintro ⟨h1, h2⟩
    exact ⟨(k - a).toNat, by omega, by omega⟩

theorem nodup_rangeInt (a b : Int) : (rangeInt a b).Nodup := by
  unfold rangeInt
  refine List.Nodup.map ?_ (List.nodup_range _)
  intro m n hmn
  simp only [add_right_inj, Nat.cast_inj] at hmn
  exact hmn

theorem length_rangeInt (a b : Int) : (rangeInt a b).length = (b - a).toNat := by
  simp [rangeInt]

theorem halfPatchesPerSide_nonneg (n : Nat) : 0 ≤ halfPatchesPerSide n := by
  unfold halfPatchesPerSide
  cases n with
  | zero => decide
  | succ m =>
      have h1 : ((m + 1 : Nat) : Int) - 1 = (m : Int) := by push_cast; ring
      rw [h1]
      exact Int.tdiv_nonneg (by positivity) (by norm_num)

theorem halfPatchesPerSide_eq (n : Nat) :
    halfPatchesPerSide n = (((n - 1) / 2 : Nat) : Int) := by
  unfold halfPatchesPerSide
  cases n with
  | zero => decide
  | succ m =>
      have h1 : ((m + 1 : Nat) : Int) - 1 = (m : Int) := by push_cast; ring
      rw [h1, Nat.succ_sub_one]
      rfl

theorem coords_append (l1 l2 : List TerrainPatch) :
    coords (l1 ++ l2) = coords l1 ++ coords l2 := by
  simp [coords]

theorem coords_newColumn (c1 h atX : Int) :
    coords (newColumn c1 h atX) =
      (rangeInt (c1 - h) (c1 + h + 1)).map (fun iy => (atX, iy)) := by
  simp [coords, newColumn, List.map_map, TerrainPatch.index, Function.comp]

theorem coords_newRow (c0 h atY : Int) :
    coords (newRow c0 h atY) =
      (rangeInt (c0 - h) (c0 + h + 1)).map (fun ix => (ix, atY)) := by
  simp [coords, newRow, List.map_map, TerrainPatch.index, Function.comp]

theorem mem_coords_newColumn {c1 h atX : Int} {q : Int × Int} :
    q ∈ coords (newColumn c1 h atX) ↔
      q.1 = atX ∧ c1 - h ≤ q.2 ∧ q.2 ≤ c1 + h := by
  rw [coords_newColumn]
  simp only [List.mem_map, mem_rangeInt]
  constructor
  · rintro ⟨iy, hiy, rfl⟩
    exact ⟨rfl, by omega, by omega⟩
  · rintro ⟨h1, h2, h3⟩
    refine ⟨q.2, by omega, ?_⟩
    rw [← h1]

theorem mem_coords_newRow {c0 h atY : Int} {q : Int × Int} :
    q ∈ coords (newRow c0 h atY) ↔
      q.2 = atY ∧ c0 - h ≤ q.1 ∧ q.1 ≤ c0 + h := by
  rw [coords_newRow]
  simp only [List.mem_map, mem_rangeInt]
  constructor
  · rintro ⟨ix, hix, rfl⟩
    exact ⟨rfl, by omega, by omega⟩
  · rintro ⟨h1, h2, h3⟩
    refine ⟨q.1, by omega, ?_⟩
    rw [← h1]

theorem nodup_coords_newColumn (c1 h atX : Int) :
    (coords (newColumn c1 h atX)).Nodup := by
  unfold newColumn coords
  rw [List.map_map]
  refine List.Nodup.map ?_ (nodup_rangeInt _ _)
  intro m n hmn
  simpa [TerrainPatch.index] using hmn

theorem nodup_coords_newRow (c0 h atY : Int) :
    (coords (newRow c0 h atY)).Nodup := by
  unfold newRow coords
  rw [List.map_map]
  refine List.Nodup.map ?_ (nodup_rangeInt _ _)
  intro m n hmn
  simpa [TerrainPatch.index] using hmn

theorem length_newColumn (c1 h atX : Int) :
    (newColumn c1 h atX).length = (2 * h + 1).toNat := by
  unfold newColumn
  rw [List.length_map, length_rangeInt]
  congr 1
  ring

theorem length_newRow (c0 h atY : Int) :
    (newRow c0 h atY).length = (2 * h + 1).toNat := by
  unfold newRow
  rw [List.length_map, length_rangeInt]
  congr 1
  ring

/-! ## The four re-centering loops: membership, duplicate-freedom, length -/

theorem mem_coords_stepsXpos {h c1 : Int} :
    ∀ (n : Nat) (c0 : Int) (q : Int × Int),
      q ∈ coords (stepsXpos h c1 n c0) ↔
        c0 + 1 + h ≤ q.1 ∧ q.1 ≤ c0 + n + h ∧ c1 - h ≤ q.2 ∧ q.2 ≤ c1 + h := by
  intro n
  induction n with
  | zero =>
      intro c0 q
      simp only [stepsXpos, coords, List.map_nil, List.not_mem_nil, false_iff]
      push_cast
      omega
  | succ m ih =>
      intro c0 q
      rw [stepsXpos, coords_append, List.mem_append, mem_coords_newColumn, ih]
      push_cast
      omega

theorem mem_coords_stepsXneg {h c1 : Int} :
    ∀ (n : Nat) (c0 : Int) (q : Int × Int),
      q ∈ coords (stepsXneg h c1 n c0) ↔
        c0 - n - h ≤ q.1 ∧ q.1 ≤ c0 - 1 - h ∧ c1 - h ≤ q.2 ∧ q.2 ≤ c1 + h := by
  intro n
  induction n with
  | zero =>
      intro c0 q
      simp only [stepsXneg, coords, List.map_nil, List.not_mem_nil, false_iff]
      push_cast
      omega
  | succ m ih =>
      intro c0 q
      rw [stepsXneg, coords_append, List.mem_append, mem_coords_newColumn, ih]
      push_cast
      omega

theorem mem_coords_stepsYpos {h c0 : Int} :
    ∀ (n : Nat) (c1 : Int) (q : Int × Int),
      q ∈ coords (stepsYpos h c0 n c1) ↔
        c1 + 1 + h ≤ q.2 ∧ q.2 ≤ c1 + n + h ∧ c0 - h ≤ q.1 ∧ q.1 ≤ c0 + h := by
  intro n
  induction n with
  | zero =>
      intro c1 q
      simp only [stepsYpos, coords, List.map_nil, List.not_mem_nil, false_iff]
      push_cast
      omega
  | succ m ih =>
      intro c1 q
      rw [stepsYpos, coords_append, List.mem_append, mem_coords_newRow, ih]
      push_cast
      omega

theorem mem_coords_stepsYneg {h c0 : Int} :
    ∀ (n : Nat) (c1 : Int) (q : Int × Int),
      q ∈ coords (stepsYneg h c0 n c1) ↔
        c1 - n - h ≤ q.2 ∧ q.2 ≤ c1 - 1 - h ∧ c0 - h ≤ q.1 ∧ q.1 ≤ c0 + h := by
  intro n
  induction n with
  | zero =>
      intro c1 q
      simp only [stepsYneg, coords, List.map_nil, List.not_mem_nil, false_iff]
      push_cast
      omega
  | succ m ih =>
      intro c1 q
      rw [stepsYneg, coords_append, List.mem_append, mem_coords_newRow, ih]
      push_cast
      omega

theorem nodup_coords_stepsXpos {h c1 : Int} :
    ∀ (n : Nat) (c0 : Int), (coords (stepsXpos h c1 n c0)).Nodup := by
  intro n
  induction n with
  | zero => intro c0; simp [stepsXpos, coords]
  | succ m ih =>
      intro c0
      rw [stepsXpos, coords_append]
      refine (nodup_coords_newColumn _ _ _).append (ih _) ?_
      intro q hq hq2
      rw [mem_coords_newColumn] at hq
      rw [mem_coords_stepsXpos] at hq2
      omega

theorem nodup_coords_stepsXneg {h c1 : Int} :
    ∀ (n : Nat) (c0 : Int), (coords (stepsXneg h c1 n c0)).Nodup := by
  intro n
  induction n with
  | zero => intro c0; simp [stepsXneg, coords]
  | succ m ih =>
      intro c0
      rw [stepsXneg, coords_append]
      refine (nodup_coords_newColumn _ _ _).append (ih _) ?_
      intro q hq hq2
      rw [mem_coords_newColumn] at hq
      rw [mem_coords_stepsXneg] at hq2
      omega

theorem nodup_coords_stepsYpos {h c0 : Int} :
    ∀ (n : Nat) (c1 : Int), (coords (stepsYpos h c0 n c1)).Nodup := by
  intro n
  induction n with
  | zero => intro c1; simp [stepsYpos, coords]
  | succ m ih =>
      intro c1
      rw [stepsYpos, coords_append]
      refine (nodup_coords_newRow _ _ _).append (ih _) ?_
      intro q hq hq2
      rw [mem_coords_newRow] at hq
      rw [mem_coords_stepsYpos] at hq2
      omega

theorem nodup_coords_stepsYneg {h c0 : Int} :
    ∀ (n : Nat) (c1 : Int), (coords (stepsYneg h c0 n c1)).Nodup := by
  intro n
  induction n with
  | zero => intro c1; simp [stepsYneg, coords]
  | succ m ih =>
      intro c1
      rw [stepsYneg, coords_append]
      refine (nodup_coords_newRow _ _ _).append (ih _) ?_
      intro q hq hq2
      rw [mem_coords_newRow] at hq
      rw [mem_coords_stepsYneg] at hq2
      omega

theorem length_stepsXpos (h c1 : Int) :
    ∀ (n : Nat) (c0 : Int), (stepsXpos h c1 n c0).length = n * (2 * h + 1).toNat := by
  intro n
  induction n with
  | zero => intro c0; simp [stepsXpos]
  | succ m ih =>
      intro c0
      rw [stepsXpos, List.length_append, length_newColumn, ih]
      ring

theorem length_stepsXneg (h c1 : Int) :
    ∀ (n : Nat) (c0 : Int), (stepsXneg h c1 n c0).length = n * (2 * h + 1).toNat := by
  intro n
  induction n with
  | zero => intro c0; simp [stepsXneg]
  | succ m ih =>
      intro c0
      rw [stepsXneg, List.length_append, length_newColumn, ih]
      ring

theorem length_stepsYpos (h c0 : Int) :
    ∀ (n : Nat) (c1 : Int), (stepsYpos h c0 n c1).length = n * (2 * h + 1).toNat := by
  intro n
  induction n with
  | zero => intro c1; simp [stepsYpos]
  | succ m ih =>
      intro c1
      rw [stepsYpos, List.length_append, length_newRow, ih]
      ring

theorem length_stepsYneg (h c0 : Int) :
    ∀ (n : Nat) (c1 : Int), (stepsYneg h c0 n c1).length = n * (2 * h + 1).toNat := by
  intro n
  induction n with
  | zero => intro c1; simp [stepsYneg]
  | succ m ih =>
      intro c1
      rw [stepsYneg, List.length_append, length_newRow, ih]
      ring

/-! ## The construction block `newPatches` -/

theorem coords_newPatches (c : Int × Int) (h : Int) :
    coords (newPatches c h) =
      (rangeInt (c.1 - h) (c.1 + h + 1)).flatMap (fun ix =>
        (rangeInt (c.2 - h) (c.2 + h + 1)).map (fun iy => (ix, iy))) := by
  simp [coords, newPatches, List.map_flatMap, List.map_map, TerrainPatch.index,
    Function.comp_def]

theorem mem_coords_newPatches {c : Int × Int} {h : Int} {q : Int × Int} :
    q ∈ coords (newPatches c h) ↔
      c.1 - h ≤ q.1 ∧ q.1 ≤ c.1 + h ∧ c.2 - h ≤ q.2 ∧ q.2 ≤ c.2 + h := by
  rw [coords_newPatches]
  simp only [List.mem_flatMap, List.mem_map, mem_rangeInt]
  constructor
  · rintro ⟨ix, hix, iy, hiy, rfl⟩
    exact ⟨by omega, by omega, by omega, by omega⟩
  · rintro ⟨h1, h2, h3, h4⟩
    exact ⟨q.1, by omega, q.2, by omega, rfl⟩

theorem nodup_coords_newPatches (c : Int × Int) (h : Int) :
    (coords (newPatches c h)).Nodup := by
  rw [coords_newPatches, List.nodup_flatMap]
  constructor
  · intro ix _
    refine List.Nodup.map ?_ (nodup_rangeInt _ _)
    intro m n hmn
    simpa using hmn
  · refine List.Pairwise.imp ?_ (nodup_rangeInt _ _)
    intro ix iy hne q hq1 hq2
    simp only [List.mem_map, mem_rangeInt] at hq1 hq2
    obtain ⟨v, _, rfl⟩ := hq1
    obtain ⟨w, _, hw⟩ := hq2
    exact hne (congrArg Prod.fst hw).symm

/-! ## Coordinates after an `update` -/

theorem inWindowB_eq_true {x0 y0 h : Int} {q : Int × Int} :
    inWindowB x0 y0 h q = true ↔
      x0 - h ≤ q.1 ∧ q.1 ≤ x0 + h ∧ y0 - h ≤ q.2 ∧ q.2 ≤ y0 + h := by
  unfold inWindowB
  simp only [Bool.and_eq_true, decide_eq_true_eq, abs_le]
  omega

theorem coords_filter_keep_map (x0 y0 h : Int) (f : TerrainPatch → BufferRef)
    (l : List TerrainPatch) :
    coords ((l.filter (keepPatch x0 y0 h)).map
        (fun p => { p with indexBuffer := f p })) =
      (coords l).filter (inWindowB x0 y0 h) := by
  unfold coords
  rw [List.map_map]
  rw [show (TerrainPatch.index ∘ fun p =>
      ({ p with indexBuffer := f p } : TerrainPatch)) = TerrainPatch.index from rfl]
  rw [List.filter_map]
  rfl

theorem mem_windowFinset {c : Int × Int} {h : Int} {q : Int × Int} :
    q ∈ windowFinset c h ↔
      c.1 - h ≤ q.1 ∧ q.1 ≤ c.1 + h ∧ c.2 - h ≤ q.2 ∧ q.2 ≤ c.2 + h := by
  unfold windowFinset
  rw [Finset.mem_product]
  simp only [Finset.mem_Icc]
  omega

theorem card_windowFinset (c : Int × Int) (h : Int) :
    (windowFinset c h).card = ((2 * h + 1).toNat) ^ 2 := by
  unfold windowFinset
  rw [Finset.card_product, Int.card_Icc, Int.card_Icc]
  rw [show c.1 + h + 1 - (c.1 - h) = 2 * h + 1 from by ring]
  rw [show c.2 + h + 1 - (c.2 - h) = 2 * h + 1 from by ring]
  rw [pow_two]

theorem coords_update (t : Terrain) (pos : Vec3) :
    coords (t.update pos).patches =
      (coords t.patches ++ coords (t.added pos)).filter
        (inWindowB (pos2patch t.patchSize pos).1 (pos2patch t.patchSize pos).2
          (halfPatchesPerSide t.patchesPerSide)) := by
  rw [← coords_append, ← coords_filter_keep_map (pos2patch t.patchSize pos).1
      (pos2patch t.patchSize pos).2 (halfPatchesPerSide t.patchesPerSide)
      (fun p => t.bufferFor (t.lod (patchDistSq t.patchSize p pos)))
      (t.patches ++ t.added pos)]
  rfl

/-! ## The windowing invariant: establishment and preservation -/

theorem Inv_new (patchSize : ℚ) (pps : Nat) (p0 : Vec3) :
    Inv (Terrain.new patchSize pps p0) := by
  constructor
  · show (coords (Terrain.new patchSize pps p0).patches).toFinset =
        windowFinset (pos2patch patchSize p0) (halfPatchesPerSide pps)
    apply Finset.ext
    intro q
    rw [List.mem_toFinset]
    rw [show (Terrain.new patchSize pps p0).patches =
        newPatches (pos2patch patchSize p0) (halfPatchesPerSide pps) from rfl]
    rw [mem_coords_newPatches, mem_windowFinset]
  · exact nodup_coords_newPatches _ _

theorem update_inv (t : Terrain) (pos : Vec3) (hinv : Inv t) :
    Inv (t.update pos) := by
  obtain ⟨hset, hnodup⟩ := hinv
  have hH0 : 0 ≤ halfPatchesPerSide t.patchesPerSide := halfPatchesPerSide_nonneg _
  have hold : ∀ r : Int × Int, r ∈ coords t.patches ↔
      t.center.1 - halfPatchesPerSide t.patchesPerSide ≤ r.1 ∧
        r.1 ≤ t.center.1 + halfPatchesPerSide t.patchesPerSide ∧
        t.center.2 - halfPatchesPerSide t.patchesPerSide ≤ r.2 ∧
        r.2 ≤ t.center.2 + halfPatchesPerSide t.patchesPerSide := by
    intro r
    rw [← List.mem_toFinset, hset, mem_windowFinset]
  constructor
  · show (coords (t.update pos).patches).toFinset =
        windowFinset (pos2patch t.patchSize pos) (halfPatchesPerSide t.patchesPerSide)
    apply Finset.ext
    intro q
    rw [List.mem_toFinset, coords_update, List.mem_filter, List.mem_append, hold q,
      mem_windowFinset, inWindowB_eq_true]
    simp only [Terrain.added, coords_append, List.mem_append, mem_coords_stepsXpos,
      mem_coords_stepsXneg, mem_coords_stepsYpos, mem_coords_stepsYneg]
    omega
  · show (coords (t.update pos).patches).Nodup
    rw [coords_update]
    apply List.Nodup.filter
    refine hnodup.append ?_ ?_
    · simp only [Terrain.added, coords_append]
      refine (((nodup_coords_stepsXpos _ _).append (nodup_coords_stepsXneg _ _)
          ?_).append (nodup_coords_stepsYpos _ _) ?_).append
        (nodup_coords_stepsYneg _ _) ?_
      · intro q hq1 hq2
        rw [mem_coords_stepsXpos] at hq1
        rw [mem_coords_stepsXneg] at hq2
        omega
      · intro q hq1 hq2
        rw [List.mem_append, mem_coords_stepsXpos, mem_coords_stepsXneg] at hq1
        rw [mem_coords_stepsYpos] at hq2
        omega
      · intro q hq1 hq2
        rw [List.mem_append, List.mem_append, mem_coords_stepsXpos,
          mem_coords_stepsXneg, mem_coords_stepsYpos] at hq1
        rw [mem_coords_stepsYneg] at hq2
        omega
    · intro q hq1 hq2
      rw [hold q] at hq1
      simp only [Terrain.added, coords_append, List.mem_append, mem_coords_stepsXpos,
        mem_coords_stepsXneg, mem_coords_stepsYpos, mem_coords_stepsYneg] at hq2
      omega

theorem applyUpdates_inv (t : Terrain) (ps : List Vec3) (h : Inv t) :
    Inv (applyUpdates t ps) := by
  induction ps generalizing t with
  | nil => exact h
  | cons p ps ih => exact ih _ (update_inv _ _ h)

theorem length_patches_of_inv (t : Terrain) (hinv : Inv t) :
    t.patches.length = ((2 * halfPatchesPerSide t.patchesPerSide + 1).toNat) ^ 2 := by
  obtain ⟨hset, hnodup⟩ := hinv
  have h1 : (coords t.patches).length = t.patches.length := List.length_map _ _
  rw [← h1, ← List.toFinset_card_of_nodup hnodup, hset, card_windowFinset]

theorem applyUpdates_patchesPerSide (t : Terrain) (ps : List Vec3) :
    (applyUpdates t ps).patchesPerSide = t.patchesPerSide := by
  induction ps generalizing t with
  | nil => rfl
  | cons p ps ih => exact ih (t.update p)

theorem applyOps_params (t : Terrain) (ops : List TerrainOp) :
    (applyOps t ops).indexBuffer = t.indexBuffer ∧
      (applyOps t ops).coarseIndexBuffer = t.coarseIndexBuffer ∧
      (applyOps t ops).veryCoarseIndexBuffer = t.veryCoarseIndexBuffer := by
  induction ops generalizing t with
  | nil => exact ⟨rfl, rfl, rfl⟩
  | cons op ops ih =>
      cases op with
      | update pos => exact ih (t.update pos)
      | setLod f => exact ih (t.setLod f)

/-! ## Block structure of the index generator -/

theorem length_flatMap_const {α : Type} (f : Nat → List α) (k : Nat)
    (hf : ∀ i, (f i).length = k) (n : Nat) :
    ((List.range n).flatMap f).length = n * k := by
  rw [List.length_flatMap]
  have h1 : List.map (List.length ∘ f) (List.range n) = List.replicate n k := by
    rw [List.eq_replicate_iff]
    constructor
    · simp
    · intro b hb
      rw [List.mem_map] at hb
      obtain ⟨i, _, rfl⟩ := hb
      exact hf i
  rw [h1, List.sum_replicate, smul_eq_mul]

theorem range_flatMap_drop {α : Type} (k : Nat) :
    ∀ (n : Nat) (f : Nat → List α), (∀ i, (f i).length = k) →
      ∀ j, j < n →
        ((List.range n).flatMap f).drop (k * j) =
          f j ++ (List.range (n - j - 1)).flatMap (fun i => f (j + 1 + i)) := by
  intro n
  induction n with
  | zero =>
      intro f hf j hj
      exact absurd hj (by omega)
  | succ m ih =>
      intro f hf j hj
      rw [List.range_succ_eq_map, List.flatMap_cons, List.flatMap_map]
      cases j with
      | zero =>
          rw [Nat.mul_zero, List.drop_zero]
          rw [show m + 1 - 0 - 1 = m from by omega]
          congr 1
          congr 1
          funext i
          congr 1
          omega
      | succ j0 =>
          rw [show k * (j0 + 1) = (f 0).length + k * j0 from by rw [hf 0]; ring]
          rw [List.drop_append_eq_append_drop]
          rw [List.drop_eq_nil_of_le (by omega), List.nil_append]
          rw [show (f 0).length + k * j0 - (f 0).length = k * j0 from by omega]
          rw [ih (fun a => f a.succ) (fun i => hf _) j0 (by omega)]
          rw [show m + 1 - (j0 + 1) - 1 = m - j0 - 1 from by omega]
          congr 1
          congr 1
          funext i
          congr 1
          omega

theorem cellBlock_eq (resolution stride r c : Nat)
    (hr : r < (stride - 1) / resolution) (hc : c < (stride - 1) / resolution) :
    cellBlock resolution stride r c = cellIndices resolution stride r c := by
  have hinner : ∀ r0 : Nat,
      ((List.range ((stride - 1) / resolution)).flatMap
        (fun c0 => cellIndices resolution stride r0 c0)).length =
        (stride - 1) / resolution * 6 :=
    fun r0 =>
      length_flatMap_const (fun c0 => cellIndices resolution stride r0 c0) 6
        (fun _ => rfl) _
  unfold cellBlock indices
  rw [show 6 * (r * ((stride - 1) / resolution) + c) =
      ((stride - 1) / resolution * 6) * r + 6 * c from by ring]
  rw [← List.drop_drop]
  rw [range_flatMap_drop ((stride - 1) / resolution * 6) ((stride - 1) / resolution)
    (fun r0 => (List.range ((stride - 1) / resolution)).flatMap
      (fun c0 => cellIndices resolution stride r0 c0)) hinner r hr]
  rw [List.drop_append_eq_append_drop]
  rw [range_flatMap_drop 6 ((stride - 1) / resolution)
    (fun c0 => cellIndices resolution stride r c0) (fun _ => rfl) c hc]
  rw [List.append_assoc]
  rw [show (6 : Nat) = (cellIndices resolution stride r c).length from rfl]
  rw [List.take_left]

theorem length_indices (resolution stride : Nat) :
    (indices resolution stride).length =
      ((stride - 1) / resolution) * (((stride - 1) / resolution) * 6) := by
  unfold indices
  exact length_flatMap_const
    (fun r => (List.range ((stride - 1) / resolution)).flatMap
      (fun c => cellIndices resolution stride r c))
    (((stride - 1) / resolution) * 6)
    (fun r => length_flatMap_const (fun c => cellIndices resolution stride r c) 6
      (fun _ => rfl) _) _

/-! ## The claims -/

/-- C1: after constructing a terrain and applying any sequence of `update`
calls, every live patch's grid coordinate lies within Chebyshev distance
`H = (patches_per_side - 1) / 2` of the center, a patch exists for every grid
coordinate within that window, and the number of live patches equals
`(2H+1)^2`. -/
theorem c1_windowing_invariant (patchSize : ℚ) (patchesPerSide : Nat)
    (initialPosition : Vec3) (positions : List Vec3) :
    let T := applyUpdates (Terrain.new patchSize patchesPerSide initialPosition)
      positions
    let H := halfPatchesPerSide patchesPerSide
    (∀ p ∈ T.patches, max |p.ix - T.center.1| |p.iy - T.center.2| ≤ H) ∧
      (∀ q : Int × Int, max |q.1 - T.center.1| |q.2 - T.center.2| ≤ H →
        ∃ p ∈ T.patches, p.index = q) ∧
      (T.patches.length : Int) = (2 * H + 1) ^ 2 := by
  intro T H
  have hinv : Inv T := applyUpdates_inv _ _ (Inv_new _ _ _)
  have hpps : T.patchesPerSide = patchesPerSide := applyUpdates_patchesPerSide _ _
  have hlen := length_patches_of_inv T hinv
  obtain ⟨hset, hnodup⟩ := hinv
  have hmem : ∀ r : Int × Int, r ∈ coords T.patches ↔ r ∈ windowFinset T.center H := by
    intro r
    rw [← List.mem_toFinset, hset, hpps]
  have hH0 : 0 ≤ H := halfPatchesPerSide_nonneg _
  refine ⟨?_, ?_, ?_⟩
  · intro p hp
    have h1 : p.index ∈ coords T.patches := List.mem_map_of_mem _ hp
    rw [hmem, mem_windowFinset] at h1
    simp only [TerrainPatch.index] at h1
    rw [max_le_iff, abs_le, abs_le]
    omega
  · intro q hq
    rw [max_le_iff, abs_le, abs_le] at hq
    have h1 : q ∈ coords T.patches := by
      rw [hmem, mem_windowFinset]
      omega
    rw [coords, List.mem_map] at h1
    obtain ⟨p, hp, hpq⟩ := h1
    exact ⟨p, hp, hpq⟩
  · rw [hlen, hpps, Nat.cast_pow, Int.toNat_of_nonneg (by omega)]

/-- C7: the index generator is a pure function — two invocations with the same
resolution and the same vertex count give identical output — and at
resolution 1 it emits `6 * (stride - 1)^2` indices. -/
theorem c7_indices_deterministic (resolution stride : Nat) :
    indices resolution stride = indices resolution stride ∧
      (1 ≤ stride → (indices 1 stride).length = 6 * (stride - 1) ^ 2) := by
  refine ⟨rfl, fun _ => ?_⟩
  rw [length_indices, Nat.div_one]
  ring

/-- Witness for C7 at `resolution = 1`, `stride = 9`. -/
theorem c7_indices_deterministic_witness :
    indices 1 9 = indices 1 9 ∧ (indices 1 9).length = 6 * (9 - 1) ^ 2 :=
  ⟨(c7_indices_deterministic 1 9).1, (c7_indices_deterministic 1 9).2 (by norm_num)⟩

/-- C9: for each of the three resolutions actually used, every emitted index
is a valid vertex number of the `stride × stride` vertex grid. -/
theorem c9_indices_in_bounds (resolution stride : Nat)
    (hres : resolution = 1 ∨ resolution = 4 ∨ resolution = 8)
    (hs : 1 ≤ stride) :
    ∀ i ∈ indices resolution stride, i < stride ^ 2 := by
  have hR : 1 ≤ resolution := by rcases hres with rfl | rfl | rfl <;> norm_num
  intro i hi
  unfold indices at hi
  rw [List.mem_flatMap] at hi
  obtain ⟨r, hr, hi⟩ := hi
  rw [List.mem_flatMap] at hi
  obtain ⟨c, hc, hi⟩ := hi
  rw [List.mem_range] at hr hc
  have hrb : (r + 1) * resolution ≤ stride - 1 :=
    le_trans (Nat.mul_le_mul_right _ (by omega)) (Nat.div_mul_le_self _ _)
  have hcb : (c + 1) * resolution ≤ stride - 1 :=
    le_trans (Nat.mul_le_mul_right _ (by omega)) (Nat.div_mul_le_self _ _)
  have hr1 : r * resolution + resolution ≤ stride - 1 := by
    rw [← Nat.succ_mul]
    exact hrb
  have hc1 : c * resolution + resolution ≤ stride - 1 := by
    rw [← Nat.succ_mul]
    exact hcb
  have hr0 : r * resolution ≤ stride - 1 := by omega
  have hc0 : c * resolution ≤ stride - 1 := by omega
  have key : ∀ a b : Nat, a ≤ stride - 1 → b ≤ stride - 1 →
      a + b * stride < stride ^ 2 := by
    intro a b ha hb
    obtain ⟨m, rfl⟩ : ∃ m, stride = m + 1 := ⟨stride - 1, by omega⟩
    have hb2 : b * (m + 1) ≤ m * (m + 1) := Nat.mul_le_mul_right _ (by omega)
    have hsq : (m + 1) ^ 2 = m * (m + 1) + (m + 1) := by ring
    omega
  simp only [cellIndices, List.mem_cons, List.not_mem_nil, or_false] at hi
  rcases hi with rfl | rfl | rfl | rfl | rfl | rfl
  · exact key _ _ hr0 hc0
  · exact key _ _ hr1 hc0
  · exact key _ _ hr0 hc1
  · exact key _ _ hr0 hc1
  · exact key _ _ hr1 hc0
  · exact key _ _ hr1 hc1

/-- Witness for C9 at `resolution = 8`, `stride = 9`. -/
theorem c9_indices_in_bounds_witness :
    ((8 : Nat) = 1 ∨ (8 : Nat) = 4 ∨ (8 : Nat) = 8) ∧ (1 : Nat) ≤ 9 ∧
      ∀ i ∈ indices 8 9, i < 9 ^ 2 :=
  ⟨by norm_num, by norm_num,
    fun i hi => c9_indices_in_bounds 8 9 (by norm_num) (by norm_num) i hi⟩

/-- C3 counterexample: `patches_per_side = 2` yields window radius `0` — a
configuration the claim says construction must reject — yet construction
succeeds with a well-formed one-patch grid and a later `update` also
succeeds. -/
theorem c3_counterexample :
    halfPatchesPerSide 2 = 0 ∧
      (Terrain.new 10 2 ⟨0, 0, 0⟩).center = (0, 0) ∧
      (Terrain.new 10 2 ⟨0, 0, 0⟩).patches.length = 1 ∧
      coords ((Terrain.new 10 2 ⟨0, 0, 0⟩).update ⟨15, 0, 0⟩).patches = [(1, 0)] := by
  have e0 : pos2patch 10 (⟨0, 0, 0⟩ : Vec3) = (0, 0) := by
    unfold pos2patch
    norm_num
  have e15 : pos2patch 10 (⟨15, 0, 0⟩ : Vec3) = (1, 0) := by
    unfold pos2patch
    norm_num
  refine ⟨by decide, ?_, ?_, ?_⟩
  · show pos2patch 10 ⟨0, 0, 0⟩ = (0, 0)
    exact e0
  · show (newPatches (pos2patch 10 ⟨0, 0, 0⟩) (halfPatchesPerSide 2)).length = 1
    rw [e0]
    decide
  · simp only [Terrain.update, Terrain.new, Terrain.added, e0, e15]
    decide

/-- C3 (amended): construction never fails: for every `patches_per_side`
(even, zero, or otherwise) and every patch size, `new` returns a terrain
holding the full `(2H+1)^2` window with the truncated radius
`H = (patches_per_side - 1) / 2`, and every later `update` likewise returns a
terrain with the full window — there is no failure path anywhere, and the
index generator truncates `(stride - 1) / resolution` without checking
divisibility. -/
theorem c3_no_rejection (patchSize : ℚ) (patchesPerSide : Nat) (initialPosition : Vec3)
    (positions : List Vec3) :
    ((applyUpdates (Terrain.new patchSize patchesPerSide initialPosition)
        positions).patches.length : Int) =
      (2 * halfPatchesPerSide patchesPerSide + 1) ^ 2 ∧
      halfPatchesPerSide patchesPerSide = (((patchesPerSide - 1) / 2 : Nat) : Int) := by
  constructor
  · have hinv := applyUpdates_inv _ positions (Inv_new patchSize patchesPerSide
      initialPosition)
    have hl := length_patches_of_inv _ hinv
    have hpps : (applyUpdates (Terrain.new patchSize patchesPerSide initialPosition)
        positions).patchesPerSide = patchesPerSide :=
      applyUpdates_patchesPerSide _ _
    rw [hl, hpps, Nat.cast_pow, Int.toNat_of_nonneg
      (by have := halfPatchesPerSide_nonneg patchesPerSide; omega)]
  · exact halfPatchesPerSide_eq patchesPerSide

/-- C10: an even `patches_per_side` is silently accepted: the truncated radius
agrees with that of the next smaller odd value, the constructed patch set is
identical, and the window measures `(n-1) × (n-1)`. -/
theorem c10_even_accepted (n : Nat) (hn : 2 ≤ n) (heven : n % 2 = 0)
    (patchSize : ℚ) (initialPosition : Vec3) :
    halfPatchesPerSide n = halfPatchesPerSide (n - 1) ∧
      (Terrain.new patchSize n initialPosition).patches =
        (Terrain.new patchSize (n - 1) initialPosition).patches ∧
      ((Terrain.new patchSize n initialPosition).patches.length : Int) =
        ((n : Int) - 1) ^ 2 := by
  have h1 : halfPatchesPerSide n = halfPatchesPerSide (n - 1) := by
    rw [halfPatchesPerSide_eq, halfPatchesPerSide_eq]
    congr 1
    omega
  refine ⟨h1, ?_, ?_⟩
  · show newPatches (pos2patch patchSize initialPosition) (halfPatchesPerSide n) =
      newPatches (pos2patch patchSize initialPosition) (halfPatchesPerSide (n - 1))
    rw [h1]
  · have hl := length_patches_of_inv _ (Inv_new patchSize n initialPosition)
    rw [hl]
    rw [show halfPatchesPerSide (Terrain.new patchSize n initialPosition).patchesPerSide
        = halfPatchesPerSide n from rfl]
    rw [halfPatchesPerSide_eq]
    rw [Nat.cast_pow]
    rw [show ((2 * (((n - 1) / 2 : Nat) : Int) + 1).toNat : Int) = (n : Int) - 1 from
      by omega]

/-- Witness for C10 at `n = 4`: the hypotheses hold and the grid equals the
`patches_per_side = 3` grid, with 9 patches. -/
theorem c10_even_accepted_witness :
    (2 : Nat) ≤ 4 ∧ (4 : Nat) % 2 = 0 ∧
      (halfPatchesPerSide 4 = halfPatchesPerSide 3 ∧
        (Terrain.new 10 4 ⟨0, 0, 0⟩).patches = (Terrain.new 10 3 ⟨0, 0, 0⟩).patches ∧
        ((Terrain.new 10 4 ⟨0, 0, 0⟩).patches.length : Int) = ((4 : Int) - 1) ^ 2) :=
  ⟨by norm_num, by norm_num, c10_even_accepted 4 (by norm_num) (by norm_num) 10 ⟨0, 0, 0⟩⟩

/-- C4: the concrete scenario.  With `patches_per_side = 3`, `patch_size = 10`
and initial position the origin, the center is `(0,0)` and the patch
coordinates are `{-1,0,1} × {-1,0,1}`; updating to `(25,0,0)` targets grid
`(2,0)`, the x-increasing loop runs exactly `2` times and pushes exactly the
two columns at `x = 2` and `x = 3`, and the final state is the 3×3 window
centered at `(2,0)` with 9 patches. -/
theorem c4_scenario :
    (Terrain.new 10 3 ⟨0, 0, 0⟩).center = (0, 0) ∧
      coords (Terrain.new 10 3 ⟨0, 0, 0⟩).patches =
        [(-1, -1), (-1, 0), (-1, 1), (0, -1), (0, 0), (0, 1),
          (1, -1), (1, 0), (1, 1)] ∧
      pos2patch 10 ⟨25, 0, 0⟩ = (2, 0) ∧
      ((pos2patch 10 ⟨25, 0, 0⟩).1 - (Terrain.new 10 3 ⟨0, 0, 0⟩).center.1).toNat
        = 2 ∧
      coords ((Terrain.new 10 3 ⟨0, 0, 0⟩).added ⟨25, 0, 0⟩) =
        [(2, -1), (2, 0), (2, 1), (3, -1), (3, 0), (3, 1)] ∧
      ((Terrain.new 10 3 ⟨0, 0, 0⟩).update ⟨25, 0, 0⟩).center = (2, 0) ∧
      coords ((Terrain.new 10 3 ⟨0, 0, 0⟩).update ⟨25, 0, 0⟩).patches =
        [(1, -1), (1, 0), (1, 1), (2, -1), (2, 0), (2, 1),
          (3, -1), (3, 0), (3, 1)] ∧
      ((Terrain.new 10 3 ⟨0, 0, 0⟩).update ⟨25, 0, 0⟩).patches.length = 9 := by
  have e0 : pos2patch 10 (⟨0, 0, 0⟩ : Vec3) = (0, 0) := by
    unfold pos2patch
    norm_num
  have e25 : pos2patch 10 (⟨25, 0, 0⟩ : Vec3) = (2, 0) := by
    unfold pos2patch
    norm_num
  refine ⟨?_, ?_, e25, ?_, ?_, ?_, ?_, ?_⟩
  · show pos2patch 10 ⟨0, 0, 0⟩ = (0, 0)
    exact e0
  · show coords (newPatches (pos2patch 10 ⟨0, 0, 0⟩) (halfPatchesPerSide 3)) = _
    rw [e0]
    decide
  · rw [e25]
    rw [show (Terrain.new 10 3 ⟨0, 0, 0⟩).center = pos2patch 10 ⟨0, 0, 0⟩ from rfl]
    rw [e0]
    decide
  · simp only [Terrain.added, Terrain.new, e0, e25]
    decide
  · show pos2patch 10 ⟨25, 0, 0⟩ = (2, 0)
    exact e25
  · simp only [Terrain.update, Terrain.new, Terrain.added, e0, e25]
    decide
  · simp only [Terrain.update, Terrain.new, Terrain.added, e0, e25]
    decide

/-- C2 counterexample: at cell `(0, 0)` of `indices` with resolution 1 and
stride 3, the first emitted triangle is `[0, 1, 3]` and the second `[3, 1, 4]`;
the near corner encodes to `0` and the far corner to `4`, and neither triangle
contains both, so the two triangles do not share the near-to-far diagonal the
claim describes. -/
theorem c2_counterexample :
    (cellBlock 1 3 0 0).take 3 = [0, 1, 3] ∧
      (cellBlock 1 3 0 0).drop 3 = [3, 1, 4] ∧
      0 * 1 + 0 * 1 * 3 = 0 ∧ 0 * 1 + 1 + (0 * 1 + 1) * 3 = 4 ∧
      ¬((0 ∈ (cellBlock 1 3 0 0).take 3 ∧ 4 ∈ (cellBlock 1 3 0 0).take 3) ∧
        (0 ∈ (cellBlock 1 3 0 0).drop 3 ∧ 4 ∈ (cellBlock 1 3 0 0).drop 3)) := by
  decide

/-- C2 (amended): for every cell `(r, c)` of the index generator's loop range,
the six indices emitted for that cell are exactly two triangles over the four
corner vertices of the quad with sample offsets `r·R`, `r·R + R`, `c·R`,
`c·R + R`, in a fixed winding order; the two triangles share the diagonal edge
joining the corners `(r·R + R, c·R)` and `(r·R, c·R + R)` — the
anti-diagonal — rather than the near-to-far diagonal. -/
theorem c2_cell_triangles (resolution stride r c : Nat)
    (hr : r < (stride - 1) / resolution) (hc : c < (stride - 1) / resolution) :
    cellBlock resolution stride r c =
      [r * resolution + (c * resolution) * stride,
       r * resolution + resolution + (c * resolution) * stride,
       r * resolution + (c * resolution + resolution) * stride,
       r * resolution + (c * resolution + resolution) * stride,
       r * resolution + resolution + (c * resolution) * stride,
       r * resolution + resolution + (c * resolution + resolution) * stride] ∧
      (r * resolution + resolution + (c * resolution) * stride
          ∈ (cellBlock resolution stride r c).take 3 ∧
        r * resolution + resolution + (c * resolution) * stride
          ∈ (cellBlock resolution stride r c).drop 3 ∧
        r * resolution + (c * resolution + resolution) * stride
          ∈ (cellBlock resolution stride r c).take 3 ∧
        r * resolution + (c * resolution + resolution) * stride
          ∈ (cellBlock resolution stride r c).drop 3) := by
  have he := cellBlock_eq resolution stride r c hr hc
  refine ⟨by rw [he]; rfl, ?_, ?_, ?_, ?_⟩ <;> rw [he] <;> simp [cellIndices]

/-- Witness for C2 at `resolution = 1`, `stride = 3`, cell `(0, 0)`. -/
theorem c2_cell_triangles_witness :
    (0 < (3 - 1) / 1 ∧ cellBlock 1 3 0 0 = [0, 1, 3, 3, 1, 4]) := by
  have h := (c2_cell_triangles 1 3 0 0 (by norm_num) (by norm_num)).1
  exact ⟨by norm_num, h.trans (by norm_num)⟩

/-- C6: updating twice at the same position performs no additions and no
evictions on the second call — the second call's re-centering loops push
nothing and its retain pass drops nothing — and the live grid coordinates and
the center are a fixed point. -/
theorem c6_update_idempotent (t : Terrain) (pos : Vec3) :
    (t.update pos).added pos = [] ∧
      (t.update pos).evicted pos = [] ∧
      coords ((t.update pos).update pos).patches = coords (t.update pos).patches ∧
      ((t.update pos).update pos).center = (t.update pos).center := by
  have hps : (t.update pos).patchSize = t.patchSize := rfl
  have hcen : (t.update pos).center = pos2patch t.patchSize pos := rfl
  have hkeep : ∀ p ∈ (t.update pos).patches,
      keepPatch (pos2patch t.patchSize pos).1 (pos2patch t.patchSize pos).2
        (halfPatchesPerSide t.patchesPerSide) p = true := by
    intro p hp
    have h1 : p.index ∈ coords (t.update pos).patches := List.mem_map_of_mem _ hp
    rw [coords_update, List.mem_filter] at h1
    exact h1.2
  have h1 : (t.update pos).added pos = [] := by
    show Terrain.added _ _ = []
    simp only [Terrain.added, hps, hcen, sub_self, Int.toNat_zero, stepsXpos,
      stepsXneg, stepsYpos, stepsYneg, List.append_nil]
  refine ⟨h1, ?_, ?_, rfl⟩
  · show Terrain.evicted _ _ = []
    simp only [Terrain.evicted, h1, List.append_nil]
    rw [List.filter_eq_nil_iff]
    intro p hp
    have h2 := hkeep p hp
    simp only [show (t.update pos).patchSize = t.patchSize from rfl,
      show (t.update pos).patchesPerSide = t.patchesPerSide from rfl]
    rw [h2]
    decide
  · rw [coords_update, h1]
    simp only [coords, List.map_nil, List.append_nil]
    rw [show (t.update pos).patchSize = t.patchSize from rfl,
      show (t.update pos).patchesPerSide = t.patchesPerSide from rfl]
    apply List.filter_eq_self.mpr
    intro q hq
    rw [List.mem_map] at hq
    obtain ⟨p, hp, rfl⟩ := hq
    exact hkeep p hp

/-- C8: after any `update` on any reachable terrain (construction followed by
any sequence of `update` and `set_lod` calls), the grid still holds the three
buffers allocated at construction, which are pairwise distinct; every live
patch's topology reference is exactly the cached buffer selected by the LOD
policy for that patch's distance; hence any two patches assigned the same LOD
level share the same buffer identity, and every patch references one of the
three cached buffers — no patch owns private index data. -/
theorem c8_topology_sharing (patchSize : ℚ) (patchesPerSide : Nat)
    (initialPosition : Vec3) (ops : List TerrainOp) (pos : Vec3) :
    let T := applyOps (Terrain.new patchSize patchesPerSide initialPosition) ops
    let T1 := T.update pos
    (T1.indexBuffer = BufferRef.standard ∧
        T1.coarseIndexBuffer = BufferRef.coarse ∧
        T1.veryCoarseIndexBuffer = BufferRef.veryCoarse) ∧
      (T1.indexBuffer ≠ T1.coarseIndexBuffer ∧
        T1.coarseIndexBuffer ≠ T1.veryCoarseIndexBuffer ∧
        T1.indexBuffer ≠ T1.veryCoarseIndexBuffer) ∧
      (∀ p ∈ T1.patches,
        p.indexBuffer = T1.bufferFor (T1.lod (patchDistSq T1.patchSize p pos))) ∧
      (∀ p ∈ T1.patches, ∀ r ∈ T1.patches,
        T1.lod (patchDistSq T1.patchSize p pos) =
            T1.lod (patchDistSq T1.patchSize r pos) →
          p.indexBuffer = r.indexBuffer) ∧
      (∀ p ∈ T1.patches, p.indexBuffer = T1.indexBuffer ∨
        p.indexBuffer = T1.coarseIndexBuffer ∨
        p.indexBuffer = T1.veryCoarseIndexBuffer) := by
  intro T T1
  obtain ⟨hb1, hb2, hb3⟩ := applyOps_params
    (Terrain.new patchSize patchesPerSide initialPosition) ops
  have hassigned : ∀ p ∈ T1.patches,
      p.indexBuffer = T1.bufferFor (T1.lod (patchDistSq T1.patchSize p pos)) := by
    intro p hp
    have hT1 : T1.patches =
        ((T.patches ++ T.added pos).filter
          (keepPatch (pos2patch T.patchSize pos).1 (pos2patch T.patchSize pos).2
            (halfPatchesPerSide T.patchesPerSide))).map
          (fun q => { q with
            indexBuffer := T.bufferFor (T.lod (patchDistSq T.patchSize q pos)) }) :=
      rfl
    rw [hT1] at hp
    obtain ⟨q, hq, rfl⟩ := List.mem_map.mp hp
    rfl
  refine ⟨⟨hb1, hb2, hb3⟩, ⟨?_, ?_, ?_⟩, hassigned, ?_, ?_⟩
  · rw [show T1.indexBuffer = T.indexBuffer from rfl,
      show T1.coarseIndexBuffer = T.coarseIndexBuffer from rfl, hb1, hb2]
    show BufferRef.standard ≠ BufferRef.coarse
    decide
  · rw [show T1.coarseIndexBuffer = T.coarseIndexBuffer from rfl,
      show T1.veryCoarseIndexBuffer = T.veryCoarseIndexBuffer from rfl, hb2, hb3]
    show BufferRef.coarse ≠ BufferRef.veryCoarse
    decide
  · rw [show T1.indexBuffer = T.indexBuffer from rfl,
      show T1.veryCoarseIndexBuffer = T.veryCoarseIndexBuffer from rfl, hb1, hb3]
    show BufferRef.standard ≠ BufferRef.veryCoarse
    decide
  · intro p hp r hr heq
    rw [hassigned p hp, hassigned r hr, heq]
  · intro p hp
    rw [hassigned p hp]
    cases T1.lod (patchDistSq T1.patchSize p pos) with
    | Standard => left; rfl
    | Coarse => right; left; rfl
    | VeryCoarse => right; right; rfl

theorem update_counts_one_step (t : Terrain) (pos : Vec3) (hinv : Inv t)
    (htarget : pos2patch t.patchSize pos = (t.center.1 + 1, t.center.2) ∨
      pos2patch t.patchSize pos = (t.center.1 - 1, t.center.2) ∨
      pos2patch t.patchSize pos = (t.center.1, t.center.2 + 1) ∨
      pos2patch t.patchSize pos = (t.center.1, t.center.2 - 1)) :
    (t.added pos).length = (2 * halfPatchesPerSide t.patchesPerSide + 1).toNat ∧
      (t.evicted pos).length =
        (2 * halfPatchesPerSide t.patchesPerSide + 1).toNat ∧
      (t.update pos).patches.length = t.patches.length := by
  have hH0 := halfPatchesPerSide_nonneg t.patchesPerSide
  have hadd : (t.added pos).length =
      (2 * halfPatchesPerSide t.patchesPerSide + 1).toNat := by
    simp only [Terrain.added, List.length_append, length_stepsXpos,
      length_stepsXneg, length_stepsYpos, length_stepsYneg]
    rcases htarget with h1 | h1 | h1 | h1
    · rw [h1]
      dsimp only
      rw [show (t.center.1 + 1 - t.center.1).toNat = 1 from by omega,
        show (t.center.1 - (t.center.1 + 1)).toNat = 0 from by omega,
        sub_self, Int.toNat_zero]
      omega
    · rw [h1]
      dsimp only
      rw [show (t.center.1 - 1 - t.center.1).toNat = 0 from by omega,
        show (t.center.1 - (t.center.1 - 1)).toNat = 1 from by omega,
        sub_self, Int.toNat_zero]
      omega
    · rw [h1]
      dsimp only
      rw [show (t.center.2 + 1 - t.center.2).toNat = 1 from by omega,
        show (t.center.2 - (t.center.2 + 1)).toNat = 0 from by omega,
        sub_self, Int.toNat_zero]
      omega
    · rw [h1]
      dsimp only
      rw [show (t.center.2 - 1 - t.center.2).toNat = 0 from by omega,
        show (t.center.2 - (t.center.2 - 1)).toNat = 1 from by omega,
        sub_self, Int.toNat_zero]
      omega
  have hupdlen : (t.update pos).patches.length =
      ((t.patches ++ t.added pos).filter
        (keepPatch (pos2patch t.patchSize pos).1 (pos2patch t.patchSize pos).2
          (halfPatchesPerSide t.patchesPerSide))).length := by
    rw [show (t.update pos).patches = ((t.patches ++ t.added pos).filter
        (keepPatch (pos2patch t.patchSize pos).1 (pos2patch t.patchSize pos).2
          (halfPatchesPerSide t.patchesPerSide))).map
        (fun q => { q with
          indexBuffer := t.bufferFor (t.lod (patchDistSq t.patchSize q pos)) })
        from rfl]
    rw [List.length_map]
  have hlen1 := length_patches_of_inv t hinv
  have hlen2 := length_patches_of_inv _ (update_inv t pos hinv)
  rw [show (t.update pos).patchesPerSide = t.patchesPerSide from rfl] at hlen2
  have hsplit : (t.patches ++ t.added pos).length =
      ((t.patches ++ t.added pos).filter
        (keepPatch (pos2patch t.patchSize pos).1 (pos2patch t.patchSize pos).2
          (halfPatchesPerSide t.patchesPerSide))).length +
        (t.evicted pos).length := by
    rw [show t.evicted pos = (t.patches ++ t.added pos).filter
        (fun p => ! keepPatch (pos2patch t.patchSize pos).1
          (pos2patch t.patchSize pos).2 (halfPatchesPerSide t.patchesPerSide) p)
        from rfl]
    exact @List.length_eq_length_filter_add _ (t.patches ++ t.added pos)
      (keepPatch (pos2patch t.patchSize pos).1 (pos2patch t.patchSize pos).2
        (halfPatchesPerSide t.patchesPerSide))
  rw [List.length_append, hadd] at hsplit
  refine ⟨hadd, ?_, ?_⟩
  · omega
  · omega

/-- C5 (amended): from any state satisfying the windowing invariant whose
center corresponds to the previous viewpoint `p`, an `update` at a viewpoint
`q` that moved exactly one patch width along one axis and did not cross a
patch boundary along the other axis (its grid coordinate there is unchanged)
adds exactly `2H+1` patches, evicts exactly `2H+1` patches, and leaves the
live count unchanged. -/
theorem c5_one_axis_step (t : Terrain) (p q : Vec3) (hinv : Inv t)
    (hc : t.center = pos2patch t.patchSize p) (hS : 0 < t.patchSize)
    (hmove :
      (q.x = p.x + t.patchSize ∧
        Int.floor (q.z / t.patchSize) = Int.floor (p.z / t.patchSize)) ∨
      (q.x = p.x - t.patchSize ∧
        Int.floor (q.z / t.patchSize) = Int.floor (p.z / t.patchSize)) ∨
      (q.z = p.z + t.patchSize ∧
        Int.floor (q.x / t.patchSize) = Int.floor (p.x / t.patchSize)) ∨
      (q.z = p.z - t.patchSize ∧
        Int.floor (q.x / t.patchSize) = Int.floor (p.x / t.patchSize))) :
    (t.added q).length = (2 * halfPatchesPerSide t.patchesPerSide + 1).toNat ∧
      (t.evicted q).length =
        (2 * halfPatchesPerSide t.patchesPerSide + 1).toNat ∧
      (t.update q).patches.length = t.patches.length := by
  have hne : t.patchSize ≠ 0 := ne_of_gt hS
  have hfadd : ∀ r : ℚ, Int.floor ((r + t.patchSize) / t.patchSize) =
      Int.floor (r / t.patchSize) + 1 := by
    intro r
    rw [show (r + t.patchSize) / t.patchSize = r / t.patchSize + 1 from by
      rw [add_div, div_self hne]]
    exact Int.floor_add_one _
  have hfsub : ∀ r : ℚ, Int.floor ((r - t.patchSize) / t.patchSize) =
      Int.floor (r / t.patchSize) - 1 := by
    intro r
    rw [show (r - t.patchSize) / t.patchSize = r / t.patchSize - 1 from by
      rw [sub_div, div_self hne]]
    exact Int.floor_sub_one _
  apply update_counts_one_step t q hinv
  rcases hmove with ⟨hx, hz⟩ | ⟨hx, hz⟩ | ⟨hz, hx⟩ | ⟨hz, hx⟩
  · left
    rw [hc]
    unfold pos2patch
    dsimp only
    rw [hx, hfadd p.x, hz]
  · right
    left
    rw [hc]
    unfold pos2patch
    dsimp only
    rw [hx, hfsub p.x, hz]
  · right
    right
    left
    rw [hc]
    unfold pos2patch
    dsimp only
    rw [hz, hfadd p.z, hx]
  · right
    right
    right
    rw [hc]
    unfold pos2patch
    dsimp only
    rw [hz, hfsub p.z, hx]

/-- Witness for C5 (amended): a clean one-patch move in the `+x` direction on
the 3×3 grid adds 3 patches, evicts 3, and keeps 9 live. -/
theorem c5_one_axis_step_witness :
    Inv (Terrain.new 10 3 ⟨0, 0, 0⟩) ∧
      (Terrain.new 10 3 ⟨0, 0, 0⟩).center =
        pos2patch (Terrain.new 10 3 ⟨0, 0, 0⟩).patchSize ⟨0, 0, 0⟩ ∧
      (0 : ℚ) < (Terrain.new 10 3 ⟨0, 0, 0⟩).patchSize ∧
      ((Terrain.new 10 3 ⟨0, 0, 0⟩).added ⟨10, 0, 0⟩).length = 3 ∧
      ((Terrain.new 10 3 ⟨0, 0, 0⟩).evicted ⟨10, 0, 0⟩).length = 3 ∧
      ((Terrain.new 10 3 ⟨0, 0, 0⟩).update ⟨10, 0, 0⟩).patches.length =
        (Terrain.new 10 3 ⟨0, 0, 0⟩).patches.length := by
  have e0 : pos2patch 10 (⟨0, 0, 0⟩ : Vec3) = (0, 0) := by
    unfold pos2patch
    norm_num
  have hinv : Inv (Terrain.new 10 3 ⟨0, 0, 0⟩) := by
    constructor
    · show (coords (newPatches (pos2patch 10 ⟨0, 0, 0⟩)
          (halfPatchesPerSide 3))).toFinset =
        windowFinset (pos2patch 10 ⟨0, 0, 0⟩) (halfPatchesPerSide 3)
      rw [e0]
      decide
    · show (coords (newPatches (pos2patch 10 ⟨0, 0, 0⟩)
          (halfPatchesPerSide 3))).Nodup
      rw [e0]
      decide
  have h := c5_one_axis_step (Terrain.new 10 3 ⟨0, 0, 0⟩) ⟨0, 0, 0⟩ ⟨10, 0, 0⟩
    hinv rfl (by show (0 : ℚ) < 10; norm_num)
    (Or.inl ⟨by show (10 : ℚ) = 0 + 10; norm_num, rfl⟩)
  rw [show (Terrain.new 10 3 ⟨0, 0, 0⟩).patchesPerSide = 3 from rfl] at h
  have h3 : (2 * halfPatchesPerSide 3 + 1).toNat = 3 := by decide
  rw [h3] at h
  exact ⟨hinv, rfl, by show (0 : ℚ) < 10; norm_num, h.1, h.2.1, h.2.2⟩

/-- C5 counterexample: the state reached by constructing at `(0, 0, 9.5)`
satisfies the invariant with `H = 1`; the viewpoint then moves to
`(10, 0, 10.2)` — exactly one patch width (10) along x and only 0.7 < 10 along
z — yet the update adds 6 patches and evicts 6, not `2H+1 = 3`, because the
0.7 move still crosses the patch boundary at `z = 10`. -/
theorem c5_counterexample :
    Inv (Terrain.new 10 3 ⟨0, 0, 9.5⟩) ∧
      (Terrain.new 10 3 ⟨0, 0, 9.5⟩).center =
        pos2patch (Terrain.new 10 3 ⟨0, 0, 9.5⟩).patchSize ⟨0, 0, 9.5⟩ ∧
      (⟨10, 0, 10.2⟩ : Vec3).x =
        (⟨0, 0, 9.5⟩ : Vec3).x + (Terrain.new 10 3 ⟨0, 0, 9.5⟩).patchSize ∧
      |(⟨10, 0, 10.2⟩ : Vec3).z - (⟨0, 0, 9.5⟩ : Vec3).z| <
        (Terrain.new 10 3 ⟨0, 0, 9.5⟩).patchSize ∧
      2 * halfPatchesPerSide 3 + 1 = 3 ∧
      ((Terrain.new 10 3 ⟨0, 0, 9.5⟩).added ⟨10, 0, 10.2⟩).length = 6 ∧
      ((Terrain.new 10 3 ⟨0, 0, 9.5⟩).evicted ⟨10, 0, 10.2⟩).length = 6 := by
  have e95 : pos2patch 10 (⟨0, 0, 9.5⟩ : Vec3) = (0, 0) := by
    unfold pos2patch
    norm_num
  have e102 : pos2patch 10 (⟨10, 0, 10.2⟩ : Vec3) = (1, 1) := by
    unfold pos2patch
    norm_num
  refine ⟨?_, rfl, by show (10 : ℚ) = 0 + 10; norm_num, ?_, by decide, ?_, ?_⟩
  · constructor
    · show (coords (newPatches (pos2patch 10 ⟨0, 0, 9.5⟩)
          (halfPatchesPerSide 3))).toFinset =
        windowFinset (pos2patch 10 ⟨0, 0, 9.5⟩) (halfPatchesPerSide 3)
      rw [e95]
      decide
    · show (coords (newPatches (pos2patch 10 ⟨0, 0, 9.5⟩)
          (halfPatchesPerSide 3))).Nodup
      rw [e95]
      decide
  · show |(10.2 : ℚ) - 9.5| < 10
    rw [abs_lt]
    constructor <;> norm_num
  · simp only [Terrain.added, Terrain.new, e95, e102]
    decide
  · simp only [Terrain.evicted, Terrain.added, Terrain.new, e95, e102]
    decide

end ThreeD
